import Mathlib

set_option linter.unusedSectionVars false
set_option linter.unusedVariables false
set_option maxRecDepth 8000

/-!
# Verification of `krypy/deflation.py`

A shallow embedding of the deflation module: the oblique projection used to
correct initial guesses (`ObliqueProjection`) and the `Arnoldifyer` that
rebuilds a Hessenberg relation with an exact residual factorization from
Krylov + deflation data.

Modelling conventions:
* Dense `numpy` arrays become `Matrix (Fin a) (Fin b) K` over a field `K`
  with a star operation (`ℚ`, `ℝ` or `ℂ` in practice); `.T.conj()` is `ᴴ`.
* Arithmetic is exact (the spec's "to numerical precision" caveats become
  exact equalities under exact-input hypotheses).
* `numpy.linalg.solve(A, B)` raises `LinAlgError` exactly when `A` is
  singular; it is modelled by `npSolve`, which returns an error exactly when
  `det A = 0` and otherwise the unique solution `A⁻¹ * B`.
* External dense-factorization primitives that the module only composes
  (Householder reflector `utils.House`, `scipy.linalg.hessenberg`,
  column-pivoted QR, the 2-norm estimate) are passed in as oracle arguments;
  theorems state their defining contracts as hypotheses.
* Block `numpy.bmat` assemblies become `Matrix.fromBlocks` /
  `Matrix.fromRows` / `Matrix.fromColumns` over sum index types.
-/

namespace KrypyDeflation

open Matrix

variable {K : Type} [Field K] [StarRing K] [DecidableEq K]

/-- Computable matrix inverse over a field: `(det A)⁻¹ • adjugate A`.
This is the exact-arithmetic meaning of the dense `solve` primitives used by
the code; it agrees with Mathlib's noncomputable `A⁻¹` on invertible input. -/
def minv {a : Type} [Fintype a] [DecidableEq a] (A : Matrix a a K) : Matrix a a K :=
  A.det⁻¹ • A.adjugate

/-- Abstract error kinds of the module (spec §7). `dimensionMismatch` models
the `ValueError` numpy raises on incompatible operand shapes. -/
inductive ArnError
  | singularDeflationBlock
  | singularReduction
  | dimensionMismatch
  deriving DecidableEq, Repr

/-- Code: `numpy.linalg.solve(A, B)` in exact arithmetic: fails with the given
error exactly when `A` is singular, otherwise returns `A⁻¹ * B`. -/
def npSolve {a b : Type} [Fintype a] [DecidableEq a] (e : ArnError)
    (A : Matrix a a K) (B : Matrix a b K) : Except ArnError (Matrix a b K) :=
  if A.det = 0 then .error e else .ok (minv A * B)

/-! ## The oblique projection (`ObliqueProjection`, lines 7–49)

`utils.Projection` itself is not part of this file's source; only the
overridden `_correction` (whose first step `inner(U, z)` and last step
`V.dot(c)` are visible at lines 32/36) and `get_x0` are.  The net effect of
the stored triangular factorizations is modelled from the spec. -/

/-- Code: `utils.inner(X, Y, ip_B)`: the block inner product `Xᴴ B Y`. -/
def innerProd {Nd a b : ℕ} (Bip : Matrix (Fin Nd) (Fin Nd) K)
    (X : Matrix (Fin Nd) (Fin a) K) (Y : Matrix (Fin Nd) (Fin b) K) :
    Matrix (Fin a) (Fin b) K :=
  Xᴴ * (Bip * Y)

/-- The data stored by `ObliqueProjection.__init__`: the operator, the
inner-product weight, the orthonormalized deflation basis `U` and the
adjoint image `AH_U = A^H U`. -/
structure ObliqueProjectionState (K : Type) [Field K] [StarRing K] (Nd d : ℕ) where
  A : Matrix (Fin Nd) (Fin Nd) K
  Bip : Matrix (Fin Nd) (Fin Nd) K
  U : Matrix (Fin Nd) (Fin d) K
  AH_U : Matrix (Fin Nd) (Fin d) K

/-- Modelled from the spec: the part of `utils.Projection` that is missing
from the source (the stored factorizations `WR`, `Q`, `R` of
`AH_U` and `⟨W, V⟩`).  Per spec §4.1 the correction "projects [z] into
coefficients against U" (the visible `inner(self.U, z)` of line 32),
"back-substitutes through the stored triangular factorization" (the solves
of lines 33–35, which jointly apply `⟨AH_U, U⟩⁻¹`), and returns a vector in
the span of the stored basis (the visible `self.V.dot(c)` of line 36):
net effect `U · ⟨AH_U, U⟩⁻¹ · ⟨U, z⟩`. -/
def correction {Nd d : ℕ} (s : ObliqueProjectionState K Nd d)
    (z : Matrix (Fin Nd) (Fin 1) K) : Matrix (Fin Nd) (Fin 1) K :=
  s.U * (minv (innerProd s.Bip s.AH_U s.U) * innerProd s.Bip s.U z)

/-- The solver-state record consumed by `get_x0` (`pre` of line 38): the
operator, left/right preconditioners, right-hand side and initial guess. -/
structure Pre (K : Type) [Field K] (Nd : ℕ) where
  A : Matrix (Fin Nd) (Fin Nd) K
  Ml : Matrix (Fin Nd) (Fin Nd) K
  Mr : Matrix (Fin Nd) (Fin Nd) K
  b : Matrix (Fin Nd) (Fin 1) K
  x0 : Matrix (Fin Nd) (Fin 1) K

/-- Code: `ObliqueProjection.get_x0` (lines 38–49):
`pre.x0 + pre.Mr * correction(pre.Ml * (pre.b - pre.A * pre.x0))`. -/
def get_x0 {Nd d : ℕ} (s : ObliqueProjectionState K Nd d) (pre : Pre K Nd) :
    Matrix (Fin Nd) (Fin 1) K :=
  pre.x0 + pre.Mr * correction s (pre.Ml * (pre.b - pre.A * pre.x0))

/- Concrete projection instance over `ℚ` used to test C2:
`A = [[1,1],[0,1]]`, `U = e₁`, `AH_U = Aᴴ·U = (1,1)ᵀ`, Euclidean inner
product, no preconditioning, `b = e₂`, `x0 = 0`. -/
namespace ExP

def A : Matrix (Fin 2) (Fin 2) ℚ := !![1, 1; 0, 1]

def U : Matrix (Fin 2) (Fin 1) ℚ := !![1; 0]

def AH_U : Matrix (Fin 2) (Fin 1) ℚ := !![1; 1]

def s : ObliqueProjectionState ℚ 2 1 := ⟨A, 1, U, AH_U⟩

def pre : Pre ℚ 2 := ⟨A, 1, 1, !![0; 1], 0⟩

end ExP

/-! ## The Arnoldifyer (lines 52–151)

Non-invariant case: `H : (n+1)×n`, `V : N×(n+1)`, `B_ : (n+1)×d` (the
invariant square case crashes at line 85, see `C5_invariant_assembly_fails`).
The residual rank `l` and the column-pivoted-QR data `Q1`
(`N×l`, the retained orthonormal residual directions) and
`G = R[:l, :][:, P_inv]` (`l×d`, the unpermuted truncated triangular factor)
appear as parameters; their computation from the QR oracle is
`lRank`/`Q1of`/`Gof` below. -/

section Arnoldifyer

variable {Nd n d l : ℕ}

/-- Code: `V[:, :n]`: the first `n` Krylov vectors. -/
def Vn (V : Matrix (Fin Nd) (Fin (n+1)) K) : Matrix (Fin Nd) (Fin n) K :=
  V.submatrix id Fin.castSucc

/-- Code: `V[:, [-1]]`: the last Krylov vector (line 116). -/
def vlast (V : Matrix (Fin Nd) (Fin (n+1)) K) : Matrix (Fin Nd) (Fin 1) K :=
  V.submatrix id fun _ => Fin.last n

/-- Code: `H[:n, :n]`: the Hessenberg matrix without its last row. -/
def Hn (H : Matrix (Fin (n+1)) (Fin n) K) : Matrix (Fin n) (Fin n) K :=
  H.submatrix Fin.castSucc id

/-- Code: `B_[:n, :]`. -/
def Bn (B_ : Matrix (Fin (n+1)) (Fin d) K) : Matrix (Fin n) (Fin d) K :=
  B_.submatrix Fin.castSucc id

/-- Code: `B_[[-1], :]`: the last row of `B_` (line 106). -/
def Blast (B_ : Matrix (Fin (n+1)) (Fin d) K) : Matrix (Fin 1) (Fin d) K :=
  B_.submatrix (fun _ => Fin.last n) id

/-- Code: `numpy.eye(n, n+1)` (line 87). -/
def eyeRect : Matrix (Fin n) (Fin (n+1)) K :=
  (1 : Matrix (Fin (n+1)) (Fin (n+1)) K).submatrix Fin.castSucc id

/-- Line 84: `EinvC = numpy.linalg.solve(E, C) if d > 0 else zeros((0, n))`,
with the `LinAlgError` of a singular `E` surfaced as
`SingularDeflationBlockError`. -/
def initEinvC (E : Matrix (Fin d) (Fin d) K) (C : Matrix (Fin d) (Fin n) K) :
    Except ArnError (Matrix (Fin d) (Fin n) K) :=
  if 0 < d then npSolve .singularDeflationBlock E C else .ok 0

/-- The stored `self.EinvC` on successful construction: the solution of
`E·X = C` (for `d = 0` the empty `0×n` matrix, like the code's `zeros`). -/
def EinvC (E : Matrix (Fin d) (Fin d) K) (C : Matrix (Fin d) (Fin n) K) :
    Matrix (Fin d) (Fin n) K :=
  minv E * C

/-- Code: `self.L` (lines 85–86): `bmat [[H, 0], [EinvC, I_d]]`, taking the stored
`EinvC` value as the argument `EC`. -/
def Lmat (H : Matrix (Fin (n+1)) (Fin n) K) (EC : Matrix (Fin d) (Fin n) K) :
    Matrix (Fin (n+1) ⊕ Fin d) (Fin n ⊕ Fin d) K :=
  fromBlocks H 0 EC 1

/-- Code: `self.J` (lines 87–88): `bmat [[eye(n, n+1), B_[:n, :]], [0, E]]`. -/
def Jmat (B_ : Matrix (Fin (n+1)) (Fin d) K) (E : Matrix (Fin d) (Fin d) K) :
    Matrix (Fin n ⊕ Fin d) (Fin (n+1) ⊕ Fin d) K :=
  fromBlocks eyeRect (Bn B_) 0 E

/-- Code: `self.M` (lines 89–92):
`bmat [[H[:n, :n] + B_[:n, :]·EinvC, B_[:n, :]], [C, E]]`. -/
def Mmat (H : Matrix (Fin (n+1)) (Fin n) K) (B_ : Matrix (Fin (n+1)) (Fin d) K)
    (C : Matrix (Fin d) (Fin n) K) (E : Matrix (Fin d) (Fin d) K)
    (EC : Matrix (Fin d) (Fin n) K) :
    Matrix (Fin n ⊕ Fin d) (Fin n ⊕ Fin d) K :=
  fromBlocks (Hn H + Bn B_ * EC) (Bn B_) C E

/-- First block `[[1 at the last of the first n+1 coordinates]]`: first block of the
selector `bmat [[zeros((d+1, n)), eye(d+1)]]` of lines 108–109, re-indexed
over `Fin (n+1) ⊕ Fin d`. -/
def lastRowSel : Matrix (Fin 1) (Fin (n+1)) K :=
  of fun _ j => if j = Fin.last n then 1 else 0

/-- The selector `bmat [[zeros((d+1, n)), eye(d+1)]]` (lines 108–109): picks
the last `d+1` of the `n+d+1` coordinates, i.e. the last of `Fin (n+1)`
followed by the `Fin d` block. -/
def selector : Matrix (Fin 1 ⊕ Fin d) (Fin (n+1) ⊕ Fin d) K :=
  fromBlocks lastRowSel 0 0 1

/-- Code: `bmat [[[[1]], B_[[-1], :]], [0, R12[:, P_inv]]]` (lines 106–107),
with `G` the unpermuted truncated triangular factor `R12[:, P_inv]`. -/
def smallN (B_ : Matrix (Fin (n+1)) (Fin d) K) (G : Matrix (Fin l) (Fin d) K) :
    Matrix (Fin 1 ⊕ Fin l) (Fin 1 ⊕ Fin d) K :=
  fromBlocks 1 (Blast B_) 0 G

/-- Code: `self.N` (lines 106–109, and 112–113 for `d = 0`, where `l = 0` and the
`G`/`Blast` blocks are empty): the residual helper matrix. -/
def Nmat (B_ : Matrix (Fin (n+1)) (Fin d) K) (G : Matrix (Fin l) (Fin d) K) :
    Matrix (Fin 1 ⊕ Fin l) (Fin (n+1) ⊕ Fin d) K :=
  smallN B_ G * selector

/-- Code: `self.Z = numpy.c_[V[:, [-1]], Q1]` (line 116): the residual basis. -/
def Zmat (V : Matrix (Fin Nd) (Fin (n+1)) K) (Q1 : Matrix (Fin Nd) (Fin l) K) :
    Matrix (Fin Nd) (Fin 1 ⊕ Fin l) K :=
  fromColumns (vlast V) Q1

/-- Code: `numpy.c_[V[:, :n], U]` (line 147): the combined reduced basis. -/
def Wmat (V : Matrix (Fin Nd) (Fin (n+1)) K) (U : Matrix (Fin Nd) (Fin d) K) :
    Matrix (Fin Nd) (Fin n ⊕ Fin d) K :=
  fromColumns (Vn V) U

/-- The extended basis `[V, AU]`: the images `[A·V_n and the residual tail, A·U]` expressed in
the combined extended basis; satisfies `A·[V_n, U] = [V, AU]·L` under the
deflated-Arnoldi input contract (`AW_eq_YL`). -/
def Ymat (V : Matrix (Fin Nd) (Fin (n+1)) K) (AU : Matrix (Fin Nd) (Fin d) K) :
    Matrix (Fin Nd) (Fin (n+1) ⊕ Fin d) K :=
  fromColumns V AU

section Get

variable {κ : Type} [Fintype κ] [DecidableEq κ]

/-- Line 124: `PtE = Wt^H·(M·Wt)`. -/
def PtEmat (MM : Matrix (Fin n ⊕ Fin d) (Fin n ⊕ Fin d) K)
    (Wt : Matrix (Fin n ⊕ Fin d) κ K) : Matrix κ κ K :=
  Wtᴴ * (MM * Wt)

/-- Lines 125–126: `Pt = eye(n+d+1) − L·(Wt·solve(PtE, Wt^H·J))`. -/
def Ptmat (LL : Matrix (Fin (n+1) ⊕ Fin d) (Fin n ⊕ Fin d) K)
    (JJ : Matrix (Fin n ⊕ Fin d) (Fin (n+1) ⊕ Fin d) K)
    (MM : Matrix (Fin n ⊕ Fin d) (Fin n ⊕ Fin d) K)
    (Wt : Matrix (Fin n ⊕ Fin d) κ K) :
    Matrix (Fin (n+1) ⊕ Fin d) (Fin (n+1) ⊕ Fin d) K :=
  1 - LL * (Wt * (minv (PtEmat MM Wt) * (Wtᴴ * JJ)))

/-- The seed vector `r_[[[Pv_norm]], zeros((n, 1)), EUv]` of lines 128–131,
where `EUv` is `solve(E, U_v)` (empty for `d = 0`). -/
def q0 (Pv_norm : K) (EUv : Matrix (Fin d) (Fin 1) K) :
    Matrix (Fin (n+1) ⊕ Fin d) (Fin 1) K :=
  fromRows (of fun i _ => if (i : ℕ) = 0 then Pv_norm else 0) EUv

/-- Lines 128–131: `qt = Pt·[Pv_norm; 0; solve(E, U_v)]`. -/
def qtvec (LL : Matrix (Fin (n+1) ⊕ Fin d) (Fin n ⊕ Fin d) K)
    (JJ : Matrix (Fin n ⊕ Fin d) (Fin (n+1) ⊕ Fin d) K)
    (MM : Matrix (Fin n ⊕ Fin d) (Fin n ⊕ Fin d) K)
    (Wt : Matrix (Fin n ⊕ Fin d) κ K) (Pv_norm : K)
    (EUv : Matrix (Fin d) (Fin 1) K) : Matrix (Fin (n+1) ⊕ Fin d) (Fin 1) K :=
  Ptmat LL JJ MM Wt * q0 Pv_norm EUv

/-- Line 132: `q = J·qt` (the vector handed to `utils.House`). -/
def qvec (LL : Matrix (Fin (n+1) ⊕ Fin d) (Fin n ⊕ Fin d) K)
    (JJ : Matrix (Fin n ⊕ Fin d) (Fin (n+1) ⊕ Fin d) K)
    (MM : Matrix (Fin n ⊕ Fin d) (Fin n ⊕ Fin d) K)
    (Wt : Matrix (Fin n ⊕ Fin d) κ K) (Pv_norm : K)
    (EUv : Matrix (Fin d) (Fin 1) K) : Matrix (Fin n ⊕ Fin d) (Fin 1) K :=
  JJ * qtvec LL JJ MM Wt Pv_norm EUv

/-- Lines 138–139: the matrix handed to `scipy.linalg.hessenberg`, namely
`Q.apply(J)·(Pt·LQ)` with `LQ = Q.apply(L^H)^H = L·Qh^H` for the Householder
matrix `Qh`. -/
def Xhess (LL : Matrix (Fin (n+1) ⊕ Fin d) (Fin n ⊕ Fin d) K)
    (JJ : Matrix (Fin n ⊕ Fin d) (Fin (n+1) ⊕ Fin d) K)
    (MM : Matrix (Fin n ⊕ Fin d) (Fin n ⊕ Fin d) K)
    (Wt : Matrix (Fin n ⊕ Fin d) κ K)
    (Qh : Matrix (Fin n ⊕ Fin d) (Fin n ⊕ Fin d) K) :
    Matrix (Fin n ⊕ Fin d) (Fin n ⊕ Fin d) K :=
  (Qh * JJ) * (Ptmat LL JJ MM Wt * (LL * Qhᴴ))

/-- Line 144: `R = N·(Pt·(L·QT))` with `QT = Q.apply(T) = Qh·T`. -/
def Rred (NN : Matrix (Fin 1 ⊕ Fin l) (Fin (n+1) ⊕ Fin d) K)
    (LL : Matrix (Fin (n+1) ⊕ Fin d) (Fin n ⊕ Fin d) K)
    (JJ : Matrix (Fin n ⊕ Fin d) (Fin (n+1) ⊕ Fin d) K)
    (MM : Matrix (Fin n ⊕ Fin d) (Fin n ⊕ Fin d) K)
    (Wt : Matrix (Fin n ⊕ Fin d) κ K)
    (Qh T : Matrix (Fin n ⊕ Fin d) (Fin n ⊕ Fin d) K) :
    Matrix (Fin 1 ⊕ Fin l) (Fin n ⊕ Fin d) K :=
  NN * (Ptmat LL JJ MM Wt * (LL * (Qh * T)))

/-- Line 147: `Vh = c_[V[:, :n], U]·QT`. -/
def Vhmat (V : Matrix (Fin Nd) (Fin (n+1)) K) (U : Matrix (Fin Nd) (Fin d) K)
    (Qh T : Matrix (Fin n ⊕ Fin d) (Fin n ⊕ Fin d) K) :
    Matrix (Fin Nd) (Fin n ⊕ Fin d) K :=
  Wmat V U * (Qh * T)

/-- Lines 148–149: `F = −Z·(R·Vh^H)`, symmetrized to `F + F^H`. -/
def Ffull (ZZ : Matrix (Fin Nd) (Fin 1 ⊕ Fin l) K)
    (R : Matrix (Fin 1 ⊕ Fin l) (Fin n ⊕ Fin d) K)
    (Vh : Matrix (Fin Nd) (Fin n ⊕ Fin d) K) : Matrix (Fin Nd) (Fin Nd) K :=
  -(ZZ * (R * Vhᴴ)) + (-(ZZ * (R * Vhᴴ)))ᴴ

/-- Code: `Arnoldifyer.get(Wt, full=True)` (lines 118–151) as a fallible
computation over the stored matrices, with the external factorizations
passed as oracles: `Qh` is the Householder matrix built from `q`
(line 135) and `(Hh, T)` the Hessenberg factorization of `Xhess`
(lines 139–140).  The two `numpy.linalg.solve` calls fail in program order
exactly on singular input. -/
def getCore (LL : Matrix (Fin (n+1) ⊕ Fin d) (Fin n ⊕ Fin d) K)
    (JJ : Matrix (Fin n ⊕ Fin d) (Fin (n+1) ⊕ Fin d) K)
    (MM : Matrix (Fin n ⊕ Fin d) (Fin n ⊕ Fin d) K)
    (NN : Matrix (Fin 1 ⊕ Fin l) (Fin (n+1) ⊕ Fin d) K)
    (E : Matrix (Fin d) (Fin d) K) (U_v : Matrix (Fin d) (Fin 1) K)
    (Pv_norm : K) (V : Matrix (Fin Nd) (Fin (n+1)) K)
    (U : Matrix (Fin Nd) (Fin d) K) (ZZ : Matrix (Fin Nd) (Fin 1 ⊕ Fin l) K)
    (Wt : Matrix (Fin n ⊕ Fin d) κ K)
    (Qh T Hh : Matrix (Fin n ⊕ Fin d) (Fin n ⊕ Fin d) K) :
    Except ArnError
      (Matrix (Fin n ⊕ Fin d) (Fin n ⊕ Fin d) K ×
        Matrix (Fin 1 ⊕ Fin l) (Fin n ⊕ Fin d) K ×
        Matrix (Fin Nd) (Fin n ⊕ Fin d) K × Matrix (Fin Nd) (Fin Nd) K) := do
  let sol ← npSolve .singularReduction (PtEmat MM Wt) (Wtᴴ * JJ)
  let Pt' := 1 - LL * (Wt * sol)
  let EUv ← if 0 < d then npSolve .singularDeflationBlock E U_v else pure 0
  let qt' := Pt' * q0 Pv_norm EUv
  let q' := JJ * qt'
  let R' := NN * (Pt' * (LL * (Qh * T)))
  let Vh' := Wmat V U * (Qh * T)
  let F0 := -(ZZ * (R' * Vh'ᴴ))
  pure (Hh, R', Vh', F0 + F0ᴴ)

end Get

/-- Spec-side definition (for the amended C1): the oblique projector that
deflates the candidate subspace spanned by the columns of
`Ŵ = [V_n, U]·Wt`, namely `P̂ = I − A·Ŵ·(Wt^H·M·Wt)⁻¹·(Ŵ^H·B·.)`.
Under the input contract `Wt^H·M·Wt = ⟨Ŵ, A·Ŵ⟩` (see `WBAW_eq_M`), so this
removes the operator's action along the dropped directions; for `Wt` with
zero columns it is the identity. -/
def Phat {κ : Type} [Fintype κ] [DecidableEq κ]
    (Bip A : Matrix (Fin Nd) (Fin Nd) K) (V : Matrix (Fin Nd) (Fin (n+1)) K)
    (U : Matrix (Fin Nd) (Fin d) K)
    (MM : Matrix (Fin n ⊕ Fin d) (Fin n ⊕ Fin d) K)
    (Wt : Matrix (Fin n ⊕ Fin d) κ K) : Matrix (Fin Nd) (Fin Nd) K :=
  1 - A * (Wmat V U * Wt) * (minv (PtEmat MM Wt) * ((Wmat V U * Wt)ᴴ * Bip))

end Arnoldifyer

/-! ## The rank-revealing threshold (lines 93–104)

These definitions need an ordered scalar field (the code compares
magnitudes against `1e-14 * A_norm`); the external primitives — the
column-pivoted QR factors `Qf`, `Rf`, the permutation `perm` and the 2-norm
estimate `norm2` — are parameters. -/

section RankSection

variable {K' : Type} [LinearOrderedField K'] [StarRing K'] [DecidableEq K']
variable {Nd n d : ℕ}

/-- The matrix factorized at line 97: `AU − U·E − V·B_`. -/
def residMat (V : Matrix (Fin Nd) (Fin (n+1)) K') (U AU : Matrix (Fin Nd) (Fin d) K')
    (E : Matrix (Fin d) (Fin d) K') (B_ : Matrix (Fin (n+1)) (Fin d) K') :
    Matrix (Fin Nd) (Fin d) K' :=
  AU - U * E - V * B_

/-- The hard-coded relative rank tolerance `1e-14` of line 102. -/
def rankTol : K' := 1 / 10 ^ 14

/-- Line 102: `l = (numpy.abs(numpy.diag(R)) > 1e-14 * A_norm).sum()`. -/
def lRank (Rf : Matrix (Fin d) (Fin d) K') (Anorm : K') : ℕ :=
  (Finset.univ.filter fun i => rankTol * Anorm < |Rf i i|).card

/-- Line 103: `Q1 = Q[:, :l]` (the rank estimate never exceeds `d`, so the
slice is well-formed). -/
def Q1of (Qf : Matrix (Fin Nd) (Fin d) K') (Rf : Matrix (Fin d) (Fin d) K')
    (Anorm : K') : Matrix (Fin Nd) (Fin (lRank Rf Anorm)) K' :=
  Qf.submatrix id
    (Fin.castLE (le_trans (Finset.card_filter_le _ _) (le_of_eq (by simp))))

/-- Lines 104 and 107: `R12[:, P_inv]`, the rank-truncated triangular factor
with the column pivoting undone (`P_inv = argsort(P)` is the inverse
permutation). -/
def Gof (Rf : Matrix (Fin d) (Fin d) K') (Anorm : K') (perm : Equiv.Perm (Fin d)) :
    Matrix (Fin (lRank Rf Anorm)) (Fin d) K' :=
  (Rf.submatrix
      (Fin.castLE (le_trans (Finset.card_filter_le _ _) (le_of_eq (by simp))))
      id).submatrix id fun j => perm.symm j

end RankSection

/-! ## Shape bookkeeping (`numpy` dimension checks) -/

/-- Code: `invariant = H.shape[0] == H.shape[1]` (line 69). -/
def invariantFlag (Hrows Hcols : ℕ) : Bool := Hrows == Hcols

/-- The row-compatibility requirement `numpy.bmat` imposes on the first
block row `[H, zeros((n+1, d))]` of `L` (line 85): concatenation along
columns demands `H.shape[0] = n + 1` (with `n = H.shape[1]`), for every
`d` — including `d = 0`, since a `(n+1)×0` block still carries its row
count.  `numpy` raises `ValueError` otherwise. -/
def LAssemblyOk (Hrows Hcols : ℕ) : Bool := Hrows == Hcols + 1

section Shaped

variable {Nd n d l : ℕ}

/-- The code's `d = 0` residual helper (lines 112–113):
`N = bmat [[zeros((1, n)), eye(1)]]`, i.e. the selector of the last of the
`n+1` coordinates, in the (degenerate) general index type. -/
def Nmat_d0 : Matrix (Fin 1 ⊕ Fin 0) (Fin (n+1) ⊕ Fin 0) K :=
  fromBlocks lastRowSel 0 0 1

/-- Code: `get` with an untyped `Wt : wr×wc`: the shape check `numpy` performs in
`M.dot(Wt)` (line 124) requires `Wt` to have exactly `n+d` rows; any other
row count — in particular `n+d+1` — raises `ValueError` before any output
is produced. -/
def getShaped (wr wc : ℕ) (Wt' : Matrix (Fin wr) (Fin wc) K)
    (LL : Matrix (Fin (n+1) ⊕ Fin d) (Fin n ⊕ Fin d) K)
    (JJ : Matrix (Fin n ⊕ Fin d) (Fin (n+1) ⊕ Fin d) K)
    (MM : Matrix (Fin n ⊕ Fin d) (Fin n ⊕ Fin d) K)
    (NN : Matrix (Fin 1 ⊕ Fin l) (Fin (n+1) ⊕ Fin d) K)
    (E : Matrix (Fin d) (Fin d) K) (U_v : Matrix (Fin d) (Fin 1) K)
    (Pv_norm : K) (V : Matrix (Fin Nd) (Fin (n+1)) K)
    (U : Matrix (Fin Nd) (Fin d) K) (ZZ : Matrix (Fin Nd) (Fin 1 ⊕ Fin l) K)
    (Qh T Hh : Matrix (Fin n ⊕ Fin d) (Fin n ⊕ Fin d) K) :
    Except ArnError
      (Matrix (Fin n ⊕ Fin d) (Fin n ⊕ Fin d) K ×
        Matrix (Fin 1 ⊕ Fin l) (Fin n ⊕ Fin d) K ×
        Matrix (Fin Nd) (Fin n ⊕ Fin d) K × Matrix (Fin Nd) (Fin Nd) K) :=
  if h : wr = n + d then
    getCore LL JJ MM NN E U_v Pv_norm V U ZZ
      (Wt'.submatrix (fun i => Fin.cast h.symm (finSumFinEquiv i)) id) Qh T Hh
  else .error .dimensionMismatch

end Shaped

/-! ## The stored, stateless instances -/

/-- Everything `Arnoldifyer.__init__` stores on `self` (lines 68–116). -/
structure ArnStored (K : Type) [Field K] [StarRing K] (Nd n d l : ℕ) where
  V : Matrix (Fin Nd) (Fin (n+1)) K
  U : Matrix (Fin Nd) (Fin d) K
  AU : Matrix (Fin Nd) (Fin d) K
  H : Matrix (Fin (n+1)) (Fin n) K
  B_ : Matrix (Fin (n+1)) (Fin d) K
  C : Matrix (Fin d) (Fin n) K
  E : Matrix (Fin d) (Fin d) K
  Pv_norm : K
  U_v : Matrix (Fin d) (Fin 1) K
  EinvC : Matrix (Fin d) (Fin n) K
  L : Matrix (Fin (n+1) ⊕ Fin d) (Fin n ⊕ Fin d) K
  J : Matrix (Fin n ⊕ Fin d) (Fin (n+1) ⊕ Fin d) K
  M : Matrix (Fin n ⊕ Fin d) (Fin n ⊕ Fin d) K
  A_norm : K
  N : Matrix (Fin 1 ⊕ Fin l) (Fin (n+1) ⊕ Fin d) K
  Z : Matrix (Fin Nd) (Fin 1 ⊕ Fin l) K

/-- Code: `Arnoldifyer.get` as a state-passing operation: the method reads the
stored matrices and assigns nothing, so the embedding returns the stored
state unchanged alongside the result. -/
def getS {Nd n d l : ℕ} {κ : Type} [Fintype κ] [DecidableEq κ]
    (s : ArnStored K Nd n d l) (Wt : Matrix (Fin n ⊕ Fin d) κ K)
    (Qh T Hh : Matrix (Fin n ⊕ Fin d) (Fin n ⊕ Fin d) K) :
    ArnStored K Nd n d l ×
      Except ArnError
        (Matrix (Fin n ⊕ Fin d) (Fin n ⊕ Fin d) K ×
          Matrix (Fin 1 ⊕ Fin l) (Fin n ⊕ Fin d) K ×
          Matrix (Fin Nd) (Fin n ⊕ Fin d) K × Matrix (Fin Nd) (Fin Nd) K) :=
  (s, getCore s.L s.J s.M s.N s.E s.U_v s.Pv_norm s.V s.U s.Z Wt Qh T Hh)

/-- Code: `ObliqueProjection.get_x0` as a state-passing operation. -/
def getX0S {Nd d : ℕ} (p : ObliqueProjectionState K Nd d) (pre : Pre K Nd) :
    ObliqueProjectionState K Nd d × Matrix (Fin Nd) (Fin 1) K :=
  (p, get_x0 p pre)

/-! ## A concrete valid construction over `ℚ`

`N = 3`, `n = 1`, `d = 1`, Euclidean inner product.  `A` has columns
`A·e₁ = (1,1,0)ᵀ`, `A·e₂ = (1,2,1)ᵀ`, `A·e₃ = (0,0,1)ᵀ`; the deflation
basis is `U = e₁` and the Krylov basis `V = [e₂, e₃]` is generated by the
deflated operator `(I − AU·E⁻¹·⟨U,·⟩)·A` from `v₁ = e₂`, giving
`H = [[1],[1]]`.  All stored cross blocks are their documented inner
products and the rank-revealing residual `AU − U·E − V·B_` is exactly `0`,
so `l = 0`.  `Wt = I₂` (the full reduction, `k = n + d`), with the trivial
Householder/Hessenberg oracles `Qh = T = I`, `Hh = 0` (the hessenberg input
is exactly `0` there). -/
namespace ExA

def A : Matrix (Fin 3) (Fin 3) ℚ := !![1, 1, 0; 1, 2, 0; 0, 1, 1]

def V : Matrix (Fin 3) (Fin 2) ℚ := !![0, 0; 1, 0; 0, 1]

def U : Matrix (Fin 3) (Fin 1) ℚ := !![1; 0; 0]

def AU : Matrix (Fin 3) (Fin 1) ℚ := !![1; 1; 0]

def H : Matrix (Fin 2) (Fin 1) ℚ := !![1; 1]

def B_ : Matrix (Fin 2) (Fin 1) ℚ := !![1; 0]

def C : Matrix (Fin 1) (Fin 1) ℚ := !![1]

def E : Matrix (Fin 1) (Fin 1) ℚ := !![1]

def U_v : Matrix (Fin 1) (Fin 1) ℚ := !![0]

def Q1 : Matrix (Fin 3) (Fin 0) ℚ := 0

def G : Matrix (Fin 0) (Fin 1) ℚ := 0

/-- The stored state this construction produces (`A_norm` stands in for the
external 2-norm estimate of `M`). -/
def stored : ArnStored ℚ 3 1 1 0 :=
  ⟨V, U, AU, H, B_, C, E, 1, U_v, EinvC E C, Lmat H (EinvC E C), Jmat B_ E,
    Mmat H B_ C E (EinvC E C), 3, Nmat B_ G, Zmat V Q1⟩

/-- The full reduction subspace: `Wt = I` with `n + d = 2` rows. -/
def Wt : Matrix (Fin 1 ⊕ Fin 1) (Fin 1 ⊕ Fin 1) ℚ := 1

/-- A reduction choice whose compressed restriction is singular (`Wt₁ = 0`). -/
def Wt1 : Matrix (Fin 1 ⊕ Fin 1) (Fin 1) ℚ := 0

/-- A reduction choice whose compressed restriction is invertible: keep the
first coordinate. -/
def Wt2 : Matrix (Fin 1 ⊕ Fin 1) (Fin 1) ℚ :=
  of fun r _ => if r = Sum.inl 0 then 1 else 0

/-- A stand-in value for the external 2-norm primitive applied to `M`. -/
def norm2 : Matrix (Fin 1 ⊕ Fin 1) (Fin 1 ⊕ Fin 1) ℚ → ℚ := fun _ => 3

/-- The (here zero-column-relevant) pivoted-QR factors of the exactly zero
residual `AU − U·E − V·B_`. -/
def Qf : Matrix (Fin 3) (Fin 1) ℚ := 0

def Rf : Matrix (Fin 1) (Fin 1) ℚ := 0

end ExA

/-! ## A concrete degenerate (`d = 0`) construction over `ℚ`

`N = 2`, `n = 1`: `V` is the identity, `A·e₁ = (1,1)ᵀ` gives the plain
Krylov relation `A·V₁ = V·H` with `H = [[1],[1]]`; all deflation inputs
are empty matrices.  The trivial reduction `Wt` with zero columns keeps
everything, so the Hessenberg oracle input equals `M` itself. -/
namespace ExB

def A : Matrix (Fin 2) (Fin 2) ℚ := !![1, 0; 1, 1]

def V : Matrix (Fin 2) (Fin 2) ℚ := 1

def H : Matrix (Fin 2) (Fin 1) ℚ := !![1; 1]

def Uz : Matrix (Fin 2) (Fin 0) ℚ := 0

def Bz : Matrix (Fin 2) (Fin 0) ℚ := 0

def Cz : Matrix (Fin 0) (Fin 1) ℚ := 0

def Ez : Matrix (Fin 0) (Fin 0) ℚ := 0

def Gz : Matrix (Fin 0) (Fin 0) ℚ := 0

def Q1z : Matrix (Fin 2) (Fin 0) ℚ := 0

def Wtz : Matrix (Fin 1 ⊕ Fin 0) (Fin 0) ℚ := 0

/-- The Hessenberg oracle output: the hessenberg input at `Wtz` is `M`
itself, whose only entry is `H[0,0] = 1`. -/
def Hh : Matrix (Fin 1 ⊕ Fin 0) (Fin 1 ⊕ Fin 0) ℚ := fromBlocks !![1] 0 0 1

end ExB

/-! ## Theorems -/

theorem minv_mul {a : Type} [Fintype a] [DecidableEq a] {A : Matrix a a K}
    (h : A.det ≠ 0) : minv A * A = 1 := by
  rw [minv, Matrix.smul_mul, Matrix.adjugate_mul, smul_smul, inv_mul_cancel₀ h, one_smul]

theorem mul_minv {a : Type} [Fintype a] [DecidableEq a] {A : Matrix a a K}
    (h : A.det ≠ 0) : A * minv A = 1 := by
  rw [minv, Matrix.mul_smul, Matrix.mul_adjugate, smul_smul, inv_mul_cancel₀ h, one_smul]

theorem npSolve_eq_error {a b : Type} [Fintype a] [DecidableEq a] {e : ArnError}
    {A : Matrix a a K} {B : Matrix a b K} :
    npSolve e A B = .error e ↔ A.det = 0 := by
  unfold npSolve
  by_cases h : A.det = 0 <;> simp [h]

theorem npSolve_eq_ok {a b : Type} [Fintype a] [DecidableEq a] {e : ArnError}
    {A : Matrix a a K} {B : Matrix a b K} (h : A.det ≠ 0) :
    npSolve e A B = .ok (minv A * B) := by
  unfold npSolve
  simp [h]

/-- A solution returned by `npSolve` really solves the linear system. -/
theorem npSolve_solves {a b : Type} [Fintype a] [DecidableEq a] {e : ArnError}
    {A : Matrix a a K} {B X : Matrix a b K} (h : npSolve e A B = .ok X) :
    A * X = B := by
  unfold npSolve at h
  by_cases hd : A.det = 0
  · simp [hd] at h
  · simp only [hd, if_false, Except.ok.injEq] at h
    subst h
    rw [← Matrix.mul_assoc, mul_minv hd, Matrix.one_mul]

/-- C2 (amended): the corrected guess makes the effective residual
`Ml·(b − A·x_corrected)` orthogonal (in the `ip_B` inner product) to every
column of `U` — not of `AH_U`.  The hypothesis `hadj` states that `AH_U`
is the image of `U` under the adjoint of the (preconditioned) operator the
projection was built for. -/
theorem C2_residual_orthogonal_U {Nd d : ℕ} (s : ObliqueProjectionState K Nd d)
    (pre : Pre K Nd) (hA : pre.A = s.A)
    (hadj : s.AH_Uᴴ * s.Bip = s.Uᴴ * (s.Bip * (pre.Ml * (s.A * pre.Mr))))
    (hdet : (innerProd s.Bip s.AH_U s.U).det ≠ 0) :
    innerProd s.Bip s.U (pre.Ml * (pre.b - pre.A * get_x0 s pre)) = 0 := by
  unfold innerProd at hdet ⊢
  unfold get_x0 correction innerProd
  rw [hA]
  set D := minv (s.AH_Uᴴ * (s.Bip * s.U)) with hD
  set w := s.Uᴴ * (s.Bip * (pre.Ml * (pre.b - s.A * pre.x0))) with hw
  set t := pre.Mr * (s.U * (D * w)) with ht
  have key : s.Uᴴ * (s.Bip * (pre.Ml * (s.A * t))) = w := by
    have h1 : (s.AH_Uᴴ * s.Bip) * (s.U * (D * w))
        = (s.Uᴴ * (s.Bip * (pre.Ml * (s.A * pre.Mr)))) * (s.U * (D * w)) := by
      rw [hadj]
    have h2 : (s.AH_Uᴴ * s.Bip) * (s.U * (D * w))
        = (s.AH_Uᴴ * (s.Bip * s.U) * D) * w := by
      simp only [Matrix.mul_assoc]
    rw [h2, hD, mul_minv hdet, Matrix.one_mul] at h1
    rw [ht]
    simp only [Matrix.mul_assoc] at h1 ⊢
    exact h1.symm
  have expand : pre.Ml * (pre.b - s.A * (pre.x0 + t))
      = pre.Ml * (pre.b - s.A * pre.x0) - pre.Ml * (s.A * t) := by
    rw [Matrix.mul_add, sub_add_eq_sub_sub, Matrix.mul_sub]
  rw [expand, Matrix.mul_sub, Matrix.mul_sub, key, hw, sub_self]

/-- C2 (counterexample): for a valid instance — `U` orthonormal, `AH_U`
exactly the adjoint image `Aᴴ·U`, invertible cross Gram matrix — the
effective residual after `get_x0` is *not* orthogonal to the columns of
`AH_U` (its claimed inner product is `1`, not `0`). -/
theorem C2_counterexample :
    (ExP.AH_U = ExP.Aᴴ * ExP.U ∧ ExP.Uᴴ * ExP.U = 1 ∧
      (innerProd (1 : Matrix (Fin 2) (Fin 2) ℚ) ExP.AH_U ExP.U).det ≠ 0) ∧
    innerProd ExP.s.Bip ExP.s.AH_U
      (ExP.pre.Ml * (ExP.pre.b - ExP.pre.A * get_x0 ExP.s ExP.pre)) ≠ 0 := by
  with_unfolding_all decide

/-- C2 witness: the amended orthogonality holds on the concrete instance. -/
theorem C2_residual_orthogonal_U_witness :
    innerProd ExP.s.Bip ExP.s.U
      (ExP.pre.Ml * (ExP.pre.b - ExP.pre.A * get_x0 ExP.s ExP.pre)) = 0 :=
  C2_residual_orthogonal_U ExP.s ExP.pre rfl (by with_unfolding_all decide) (by with_unfolding_all decide)

/-! ### Exact-arithmetic consequences of the stored block structure -/

section BlockLemmas

variable {Nd n d l : ℕ} {κ : Type} [Fintype κ] [DecidableEq κ]

/-- Multiplying a row-submatrix pulls the row selection outside. -/
theorem submatrix_row_mul {ι ι' ς τ : Type} [Fintype ς] (X : Matrix ι ς K)
    (Y : Matrix ς τ K) (e : ι' → ι) :
    X.submatrix e id * Y = (X * Y).submatrix e id := by
  ext i j
  simp [Matrix.mul_apply]

theorem fromColumns_add {m n₁ n₂ : Type} (A A' : Matrix m n₁ K)
    (B B' : Matrix m n₂ K) :
    fromColumns A B + fromColumns A' B' = fromColumns (A + A') (B + B') := by
  ext i j
  cases j <;> simp [Matrix.fromColumns]

/-- Identity: `eye(n, n+1) · H = H[:n, :]`. -/
theorem eyeRect_mul (H : Matrix (Fin (n+1)) (Fin n) K) :
    (eyeRect : Matrix (Fin n) (Fin (n+1)) K) * H = Hn H := by
  rw [eyeRect, submatrix_row_mul, Matrix.one_mul, Hn]

/-- Identity: `J·L = M` whenever the stored `EinvC` solves `E·X = C` — the compressed
operator block is the product of the shift and embedding blocks. -/
theorem JL_eq_M {H : Matrix (Fin (n+1)) (Fin n) K}
    {B_ : Matrix (Fin (n+1)) (Fin d) K} {C : Matrix (Fin d) (Fin n) K}
    {E : Matrix (Fin d) (Fin d) K} {EC : Matrix (Fin d) (Fin n) K}
    (hEC : E * EC = C) :
    Jmat B_ E * Lmat H EC = Mmat H B_ C E EC := by
  rw [Jmat, Lmat, Mmat, Matrix.fromBlocks_multiply]
  rw [eyeRect_mul, hEC]
  simp

/-- The deflated-Arnoldi input contract in block form:
`A·[V_n, U] = [V, AU]·L`. -/
theorem AW_eq_YL {A : Matrix (Fin Nd) (Fin Nd) K}
    {V : Matrix (Fin Nd) (Fin (n+1)) K} {U AU : Matrix (Fin Nd) (Fin d) K}
    {H : Matrix (Fin (n+1)) (Fin n) K} {EC : Matrix (Fin d) (Fin n) K}
    (hAVn : A * Vn V = V * H + AU * EC) (hAU : A * U = AU) :
    A * Wmat V U = Ymat V AU * Lmat H EC := by
  rw [Wmat, Ymat, Lmat, mul_fromColumns, fromColumns_mul_fromBlocks,
    hAVn, hAU]
  simp

/-- Identity: `⟨[V_n, U], [V, AU]⟩ = J` under the orthonormality contract of the
inputs (`V` orthonormal, `U` orthonormal and orthogonal to `V`, and
`B_`, `E` the documented cross inner products). -/
theorem WBY_eq_J {Bip : Matrix (Fin Nd) (Fin Nd) K}
    {V : Matrix (Fin Nd) (Fin (n+1)) K} {U AU : Matrix (Fin Nd) (Fin d) K}
    {B_ : Matrix (Fin (n+1)) (Fin d) K} {E : Matrix (Fin d) (Fin d) K}
    (hVV : Vᴴ * (Bip * V) = 1) (hUV : Uᴴ * (Bip * V) = 0)
    (hVAU : Vᴴ * (Bip * AU) = B_) (hUAU : Uᴴ * (Bip * AU) = E) :
    (Wmat V U)ᴴ * (Bip * Ymat V AU) = Jmat B_ E := by
  rw [Wmat, Ymat, conjTranspose_fromColumns_eq_fromRows_conjTranspose,
    mul_fromColumns, fromRows_mul_fromColumns, Jmat, Vn,
    Matrix.conjTranspose_submatrix, submatrix_row_mul, submatrix_row_mul,
    hVV, hVAU, hUV, hUAU]
  rfl

/-- Splitting `V` into its first `n` columns and its last column:
`V_n · eye(n, n+1) + v_last · lastRowSel = V`. -/
theorem Vn_eyeRect_add_vlast {V : Matrix (Fin Nd) (Fin (n+1)) K} :
    Vn V * eyeRect + vlast V * lastRowSel = V := by
  ext i j
  have h1 : (Vn V * eyeRect : Matrix (Fin Nd) (Fin (n+1)) K) i j
      = ∑ p : Fin n, if p.castSucc = j then V i p.castSucc else 0 := by
    simp only [Matrix.mul_apply, Vn, eyeRect, Matrix.submatrix_apply, id_eq,
      Matrix.one_apply, mul_ite, mul_one, mul_zero]
  have h2 : (vlast V * lastRowSel : Matrix (Fin Nd) (Fin (n+1)) K) i j
      = if j = Fin.last n then V i (Fin.last n) else 0 := by
    simp only [Matrix.mul_apply, vlast, lastRowSel, Matrix.submatrix_apply,
      Matrix.of_apply, Fin.sum_univ_one, mul_ite, mul_one, mul_zero, id_eq]
  rw [Matrix.add_apply, h1, h2]
  refine Fin.lastCases ?_ ?_ j
  · rw [if_pos rfl, Finset.sum_eq_zero, zero_add]
    intro p _
    rw [if_neg (Fin.castSucc_lt_last p).ne]
  · intro j0
    rw [if_neg (Fin.castSucc_lt_last j0).ne]
    simp only [Fin.castSucc_inj]
    rw [Finset.sum_ite_eq' Finset.univ j0 fun p => V i p.castSucc]
    simp

/-- Splitting the sum `V·B_` into the first `n` and the last Krylov
coefficients. -/
theorem Vn_Bn_add_vlast_Blast {V : Matrix (Fin Nd) (Fin (n+1)) K}
    {B_ : Matrix (Fin (n+1)) (Fin d) K} :
    Vn V * Bn B_ + vlast V * Blast B_ = V * B_ := by
  ext i j
  simp only [Matrix.add_apply, Matrix.mul_apply, Vn, Bn, vlast, Blast,
    Matrix.submatrix_apply, id_eq, Fin.sum_univ_one]
  rw [show (∑ p : Fin (n+1), V i p * B_ p j)
      = (∑ p : Fin n, V i p.castSucc * B_ p.castSucc j)
        + V i (Fin.last n) * B_ (Fin.last n) j from
    Fin.sum_univ_castSucc fun p => V i p * B_ p j]

/-- The residual-helper decomposition: the extended image basis `[V, AU]`
is recovered from the combined basis and the residual basis,
`[V_n, U]·J + Z·N = [V, AU]`, provided the rank-revealing factorization is
exact: `AU = U·E + V·B_ + Q1·G`. -/
theorem WJ_add_ZN_eq_Y {V : Matrix (Fin Nd) (Fin (n+1)) K}
    {U AU : Matrix (Fin Nd) (Fin d) K} {B_ : Matrix (Fin (n+1)) (Fin d) K}
    {E : Matrix (Fin d) (Fin d) K} {Q1 : Matrix (Fin Nd) (Fin l) K}
    {G : Matrix (Fin l) (Fin d) K}
    (hQR : AU = U * E + V * B_ + Q1 * G) :
    Wmat V U * Jmat B_ E + Zmat V Q1 * Nmat B_ G = Ymat V AU := by
  rw [Wmat, Jmat, fromColumns_mul_fromBlocks]
  rw [Zmat, Nmat, smallN, selector, Matrix.fromBlocks_multiply]
  simp only [Matrix.one_mul, Matrix.mul_zero, Matrix.zero_mul,
    Matrix.mul_one, add_zero, zero_add]
  rw [fromColumns_mul_fromBlocks]
  simp only [Matrix.mul_zero, add_zero, zero_add]
  rw [fromColumns_add, Ymat]
  refine (fromColumns_ext_iff _ _ _ _).mpr ⟨?_, ?_⟩
  · exact Vn_eyeRect_add_vlast
  · rw [hQR]
    rw [show Vn V * Bn B_ + U * E + (vlast V * Blast B_ + Q1 * G)
        = Vn V * Bn B_ + vlast V * Blast B_ + (U * E + Q1 * G) by abel]
    rw [Vn_Bn_add_vlast_Blast]
    abel

end BlockLemmas

section MainLemmas

variable {Nd n d l : ℕ} {κ : Type} [Fintype κ] [DecidableEq κ]
variable {Bip A : Matrix (Fin Nd) (Fin Nd) K} {V : Matrix (Fin Nd) (Fin (n+1)) K}
  {U AU : Matrix (Fin Nd) (Fin d) K} {H : Matrix (Fin (n+1)) (Fin n) K}
  {B_ : Matrix (Fin (n+1)) (Fin d) K} {C : Matrix (Fin d) (Fin n) K}
  {E : Matrix (Fin d) (Fin d) K} {EC : Matrix (Fin d) (Fin n) K}
  {Q1 : Matrix (Fin Nd) (Fin l) K} {G : Matrix (Fin l) (Fin d) K}

/-- The block-consistency identity: the stored `M` is the compressed
operator `⟨[V_n, U], A·[V_n, U]⟩`. -/
theorem WBAW_eq_M (hEC : E * EC = C)
    (hAVn : A * Vn V = V * H + AU * EC) (hAU : A * U = AU)
    (hVV : Vᴴ * (Bip * V) = 1) (hUV : Uᴴ * (Bip * V) = 0)
    (hVAU : Vᴴ * (Bip * AU) = B_) (hUAU : Uᴴ * (Bip * AU) = E) :
    (Wmat V U)ᴴ * (Bip * (A * Wmat V U)) = Mmat H B_ C E EC := by
  rw [AW_eq_YL hAVn hAU]
  rw [show Bip * (Ymat V AU * Lmat H EC) = Bip * Ymat V AU * Lmat H EC from
    (Matrix.mul_assoc _ _ _).symm]
  rw [← Matrix.mul_assoc, WBY_eq_J hVV hUV hVAU hUAU, JL_eq_M hEC]

/-- The central algebraic step: applying the per-`Wt` correction `Pt` to
`L` and expressing the result in the ambient space equals the action of
the deflating projector `P̂` on `A·[V_n, U]`. -/
theorem YPtL_eq_PhatAW (hEC : E * EC = C)
    (hAVn : A * Vn V = V * H + AU * EC) (hAU : A * U = AU)
    (hVV : Vᴴ * (Bip * V) = 1) (hUV : Uᴴ * (Bip * V) = 0)
    (hVAU : Vᴴ * (Bip * AU) = B_) (hUAU : Uᴴ * (Bip * AU) = E)
    (Wt : Matrix (Fin n ⊕ Fin d) κ K) :
    Ymat V AU * (Ptmat (Lmat H EC) (Jmat B_ E) (Mmat H B_ C E EC) Wt
        * Lmat H EC)
      = Phat Bip A V U (Mmat H B_ C E EC) Wt * (A * Wmat V U) := by
  have hM : Jmat B_ E * Lmat H EC = Mmat H B_ C E EC := JL_eq_M hEC
  have hAW := AW_eq_YL hAVn hAU
  have hWBAW := WBAW_eq_M hEC hAVn hAU hVV hUV hVAU hUAU
  rw [Ptmat, Phat, Matrix.sub_mul, Matrix.one_mul, Matrix.mul_sub,
    Matrix.sub_mul, Matrix.one_mul, ← hAW]
  congr 1
  simp only [Matrix.conjTranspose_mul, Matrix.mul_assoc]
  rw [hM, hWBAW]
  have h3 : (A * Wmat V U)
        * (Wt * (minv (PtEmat (Mmat H B_ C E EC) Wt)
          * (Wtᴴ * Mmat H B_ C E EC)))
      = (Ymat V AU * Lmat H EC)
        * (Wt * (minv (PtEmat (Mmat H B_ C E EC) Wt)
          * (Wtᴴ * Mmat H B_ C E EC))) := by
    rw [hAW]
  simp only [Matrix.mul_assoc] at h3
  exact h3.symm

/-- The exact round-trip law of `get` in exact arithmetic: with the
deflating projector `P̂` of the candidate subspace applied, the operator's
action on the reduced basis `Vh` is reproduced by `H_reduced` up to the
residual `Z·R_reduced` — exactly. -/
theorem roundtrip_core {Wt : Matrix (Fin n ⊕ Fin d) κ K}
    {Qh T Hh : Matrix (Fin n ⊕ Fin d) (Fin n ⊕ Fin d) K}
    (hEC : E * EC = C) (hAVn : A * Vn V = V * H + AU * EC) (hAU : A * U = AU)
    (hVV : Vᴴ * (Bip * V) = 1) (hUV : Uᴴ * (Bip * V) = 0)
    (hVAU : Vᴴ * (Bip * AU) = B_) (hUAU : Uᴴ * (Bip * AU) = E)
    (hQR : AU = U * E + V * B_ + Q1 * G)
    (hQhH : Qhᴴ = Qh) (hQh2 : Qh * Qh = 1) (hT : Tᴴ * T = 1)
    (hHess : Xhess (Lmat H EC) (Jmat B_ E) (Mmat H B_ C E EC) Wt Qh
      = T * Hh * Tᴴ) :
    Phat Bip A V U (Mmat H B_ C E EC) Wt * (A * Vhmat V U Qh T)
      = Vhmat V U Qh T * Hh
        + Zmat V Q1 * Rred (Nmat B_ G) (Lmat H EC) (Jmat B_ E)
            (Mmat H B_ C E EC) Wt Qh T := by
  have hSS' : (Qh * T)ᴴ * (Qh * T) = 1 := by
    rw [Matrix.conjTranspose_mul, hQhH]
    calc Tᴴ * Qh * (Qh * T) = Tᴴ * (Qh * Qh * T) := by
          simp only [Matrix.mul_assoc]
      _ = Tᴴ * T := by rw [hQh2, Matrix.one_mul]
      _ = 1 := hT
  have hS'S : (Qh * T) * (Qh * T)ᴴ = 1 := Matrix.mul_eq_one_comm.mp hSS'
  have hHh : Hh = (Qh * T)ᴴ
      * (Jmat B_ E * (Ptmat (Lmat H EC) (Jmat B_ E) (Mmat H B_ C E EC) Wt
        * (Lmat H EC * (Qh * T)))) := by
    have h0 : Tᴴ * (T * Hh * Tᴴ) * T = Hh := by
      calc Tᴴ * (T * Hh * Tᴴ) * T = Tᴴ * T * Hh * (Tᴴ * T) := by
            simp only [Matrix.mul_assoc]
        _ = Hh := by rw [hT, Matrix.one_mul, Matrix.mul_one]
    rw [← hHess, Xhess] at h0
    rw [← h0, Matrix.conjTranspose_mul, hQhH]
    simp only [Matrix.mul_assoc]
  calc Phat Bip A V U (Mmat H B_ C E EC) Wt * (A * Vhmat V U Qh T)
      = Phat Bip A V U (Mmat H B_ C E EC) Wt * (A * Wmat V U) * (Qh * T) := by
        rw [Vhmat]
        simp only [Matrix.mul_assoc]
    _ = Ymat V AU * (Ptmat (Lmat H EC) (Jmat B_ E) (Mmat H B_ C E EC) Wt
          * Lmat H EC) * (Qh * T) := by
        rw [YPtL_eq_PhatAW hEC hAVn hAU hVV hUV hVAU hUAU]
    _ = (Wmat V U * Jmat B_ E + Zmat V Q1 * Nmat B_ G)
          * (Ptmat (Lmat H EC) (Jmat B_ E) (Mmat H B_ C E EC) Wt
            * (Lmat H EC * (Qh * T))) := by
        rw [WJ_add_ZN_eq_Y hQR]
        simp only [Matrix.mul_assoc]
    _ = Wmat V U * (Jmat B_ E
            * (Ptmat (Lmat H EC) (Jmat B_ E) (Mmat H B_ C E EC) Wt
              * (Lmat H EC * (Qh * T))))
        + Zmat V Q1 * (Nmat B_ G
            * (Ptmat (Lmat H EC) (Jmat B_ E) (Mmat H B_ C E EC) Wt
              * (Lmat H EC * (Qh * T)))) := by
        rw [Matrix.add_mul]
        simp only [Matrix.mul_assoc]
    _ = Vhmat V U Qh T * Hh
        + Zmat V Q1 * Rred (Nmat B_ G) (Lmat H EC) (Jmat B_ E)
            (Mmat H B_ C E EC) Wt Qh T := by
        rw [Vhmat, Rred, hHh]
        rw [show Wmat V U * (Qh * T) * ((Qh * T)ᴴ
              * (Jmat B_ E * (Ptmat (Lmat H EC) (Jmat B_ E)
                  (Mmat H B_ C E EC) Wt * (Lmat H EC * (Qh * T)))))
            = Wmat V U * ((Qh * T) * (Qh * T)ᴴ)
              * (Jmat B_ E * (Ptmat (Lmat H EC) (Jmat B_ E)
                  (Mmat H B_ C E EC) Wt * (Lmat H EC * (Qh * T)))) by
          simp only [Matrix.mul_assoc]]
        rw [hS'S, Matrix.mul_one]

end MainLemmas

/-! ## Theorems about `get` as a fallible computation -/

theorem EinvC_solves {n d : ℕ} {E : Matrix (Fin d) (Fin d) K}
    {C : Matrix (Fin d) (Fin n) K} (hE : E.det ≠ 0) :
    E * EinvC E C = C := by
  rw [EinvC, ← Matrix.mul_assoc, mul_minv hE, Matrix.one_mul]

/-- When both solves succeed, `get` returns exactly the formula-level
outputs `(Hh, R, Vh, F)`. -/
theorem getCore_ok {Nd n d l : ℕ} {κ : Type} [Fintype κ] [DecidableEq κ]
    {LL : Matrix (Fin (n+1) ⊕ Fin d) (Fin n ⊕ Fin d) K}
    {JJ : Matrix (Fin n ⊕ Fin d) (Fin (n+1) ⊕ Fin d) K}
    {MM : Matrix (Fin n ⊕ Fin d) (Fin n ⊕ Fin d) K}
    {NN : Matrix (Fin 1 ⊕ Fin l) (Fin (n+1) ⊕ Fin d) K}
    {E : Matrix (Fin d) (Fin d) K} {U_v : Matrix (Fin d) (Fin 1) K}
    {Pv_norm : K} {V : Matrix (Fin Nd) (Fin (n+1)) K}
    {U : Matrix (Fin Nd) (Fin d) K} {ZZ : Matrix (Fin Nd) (Fin 1 ⊕ Fin l) K}
    {Wt : Matrix (Fin n ⊕ Fin d) κ K}
    {Qh T Hh : Matrix (Fin n ⊕ Fin d) (Fin n ⊕ Fin d) K}
    (hPtE : (PtEmat MM Wt).det ≠ 0) (hE : E.det ≠ 0) :
    getCore LL JJ MM NN E U_v Pv_norm V U ZZ Wt Qh T Hh
      = .ok (Hh, Rred NN LL JJ MM Wt Qh T, Vhmat V U Qh T,
          Ffull ZZ (Rred NN LL JJ MM Wt Qh T) (Vhmat V U Qh T)) := by
  unfold getCore
  rw [npSolve_eq_ok hPtE]
  by_cases hd : 0 < d
  · simp only [if_pos hd, npSolve_eq_ok hE]
    rfl
  · simp only [if_neg hd]
    rfl

/-- C1 (amended): for every valid construction input — a deflated-Arnoldi
Krylov relation `A·V_n = V·H + AU·E⁻¹·C`, orthonormal bases, documented
cross blocks, an exact rank-revealing factorization
`AU − U·E − V·B_ = Q1·G` — and every reduction subspace `Wt` with `n + d`
rows (not `n+d+1`) on which `get` succeeds, the outputs of
`get(Wt, full=True)` satisfy the round-trip law with the deflating
projector `P̂` of the dropped subspace `span([V_n, U]·Wt)` applied:
`P̂·A·Vh = Vh·H_reduced + Z·R_reduced`, the residual being exactly `Z`
times the returned coefficient matrix.  (For `Wt` with zero columns,
`P̂ = I` and the law holds as originally stated.) -/
theorem C1_roundtrip_deflated {Nd n d l : ℕ} {κ : Type} [Fintype κ]
    [DecidableEq κ] {Bip A : Matrix (Fin Nd) (Fin Nd) K}
    {V : Matrix (Fin Nd) (Fin (n+1)) K} {U AU : Matrix (Fin Nd) (Fin d) K}
    {H : Matrix (Fin (n+1)) (Fin n) K} {B_ : Matrix (Fin (n+1)) (Fin d) K}
    {C : Matrix (Fin d) (Fin n) K} {E : Matrix (Fin d) (Fin d) K}
    {Q1 : Matrix (Fin Nd) (Fin l) K} {G : Matrix (Fin l) (Fin d) K}
    {Pv_norm : K} {U_v : Matrix (Fin d) (Fin 1) K}
    {Wt : Matrix (Fin n ⊕ Fin d) κ K}
    {Qh T Hh : Matrix (Fin n ⊕ Fin d) (Fin n ⊕ Fin d) K}
    (hE : E.det ≠ 0)
    (hAVn : A * Vn V = V * H + AU * EinvC E C) (hAU : A * U = AU)
    (hVV : Vᴴ * (Bip * V) = 1) (hUV : Uᴴ * (Bip * V) = 0)
    (hVAU : Vᴴ * (Bip * AU) = B_) (hUAU : Uᴴ * (Bip * AU) = E)
    (hQR : AU = U * E + V * B_ + Q1 * G)
    (hQhH : Qhᴴ = Qh) (hQh2 : Qh * Qh = 1) (hT : Tᴴ * T = 1)
    (hHess : Xhess (Lmat H (EinvC E C)) (Jmat B_ E)
        (Mmat H B_ C E (EinvC E C)) Wt Qh = T * Hh * Tᴴ)
    (hPtE : (PtEmat (Mmat H B_ C E (EinvC E C)) Wt).det ≠ 0) :
    getCore (Lmat H (EinvC E C)) (Jmat B_ E) (Mmat H B_ C E (EinvC E C))
        (Nmat B_ G) E U_v Pv_norm V U (Zmat V Q1) Wt Qh T Hh
      = .ok (Hh,
          Rred (Nmat B_ G) (Lmat H (EinvC E C)) (Jmat B_ E)
            (Mmat H B_ C E (EinvC E C)) Wt Qh T,
          Vhmat V U Qh T,
          Ffull (Zmat V Q1)
            (Rred (Nmat B_ G) (Lmat H (EinvC E C)) (Jmat B_ E)
              (Mmat H B_ C E (EinvC E C)) Wt Qh T) (Vhmat V U Qh T)) ∧
    Phat Bip A V U (Mmat H B_ C E (EinvC E C)) Wt * (A * Vhmat V U Qh T)
      = Vhmat V U Qh T * Hh
        + Zmat V Q1 * Rred (Nmat B_ G) (Lmat H (EinvC E C)) (Jmat B_ E)
            (Mmat H B_ C E (EinvC E C)) Wt Qh T :=
  ⟨getCore_ok hPtE hE,
    roundtrip_core (EinvC_solves hE) hAVn hAU hVV hUV hVAU hUAU hQR hQhH
      hQh2 hT hHess⟩

/-- C1 (counterexample): a fully valid construction input (deflated-Arnoldi
relation, orthonormality, documented cross blocks, exactly vanishing
rank-revealing residual) with the *identity* reduction `Wt = I` (at the
code's required `n + d = 2` rows), on which `get` succeeds (its compressed
restriction `PtE = M` has determinant `1`) and its Householder/Hessenberg
oracles are trivially valid (`q = 0` and the hessenberg input is `0`), yet
`A·Vh ≠ Vh·H_reduced + Z·R_reduced`: the round-trip law without the
deflating projector is false. -/
theorem C1_counterexample :
    (ExA.E * EinvC ExA.E ExA.C = ExA.C ∧
     ExA.A * Vn ExA.V = ExA.V * ExA.H + ExA.AU * EinvC ExA.E ExA.C ∧
     ExA.A * ExA.U = ExA.AU ∧
     ExA.Vᴴ * ((1 : Matrix (Fin 3) (Fin 3) ℚ) * ExA.V) = 1 ∧
     ExA.Uᴴ * ((1 : Matrix (Fin 3) (Fin 3) ℚ) * ExA.V) = 0 ∧
     ExA.Vᴴ * ((1 : Matrix (Fin 3) (Fin 3) ℚ) * ExA.AU) = ExA.B_ ∧
     ExA.Uᴴ * ((1 : Matrix (Fin 3) (Fin 3) ℚ) * ExA.AU) = ExA.E ∧
     ExA.AU = ExA.U * ExA.E + ExA.V * ExA.B_ + ExA.Q1 * ExA.G ∧
     residMat ExA.V ExA.U ExA.AU ExA.E ExA.B_ = 0 ∧
     (PtEmat (Mmat ExA.H ExA.B_ ExA.C ExA.E (EinvC ExA.E ExA.C)) ExA.Wt).det
       ≠ 0 ∧
     Xhess (Lmat ExA.H (EinvC ExA.E ExA.C)) (Jmat ExA.B_ ExA.E)
       (Mmat ExA.H ExA.B_ ExA.C ExA.E (EinvC ExA.E ExA.C)) ExA.Wt 1 = 0 ∧
     qvec (Lmat ExA.H (EinvC ExA.E ExA.C)) (Jmat ExA.B_ ExA.E)
       (Mmat ExA.H ExA.B_ ExA.C ExA.E (EinvC ExA.E ExA.C)) ExA.Wt 1
       (minv ExA.E * ExA.U_v) = 0) ∧
    ExA.A * Vhmat ExA.V ExA.U 1 1
      ≠ Vhmat ExA.V ExA.U 1 1 * (0 : Matrix (Fin 1 ⊕ Fin 1) (Fin 1 ⊕ Fin 1) ℚ)
        + Zmat ExA.V ExA.Q1
          * Rred (Nmat ExA.B_ ExA.G) (Lmat ExA.H (EinvC ExA.E ExA.C))
            (Jmat ExA.B_ ExA.E)
            (Mmat ExA.H ExA.B_ ExA.C ExA.E (EinvC ExA.E ExA.C)) ExA.Wt 1 1 := by
  with_unfolding_all decide

/-- C1 witness: the amended round-trip law holds on the concrete instance
(with the deflating projector of the full reduction `Wt = I` applied). -/
theorem C1_roundtrip_deflated_witness :
    getCore (Lmat ExA.H (EinvC ExA.E ExA.C)) (Jmat ExA.B_ ExA.E)
        (Mmat ExA.H ExA.B_ ExA.C ExA.E (EinvC ExA.E ExA.C))
        (Nmat ExA.B_ ExA.G) ExA.E ExA.U_v 1 ExA.V ExA.U (Zmat ExA.V ExA.Q1)
        ExA.Wt 1 1 0
      = .ok (0,
          Rred (Nmat ExA.B_ ExA.G) (Lmat ExA.H (EinvC ExA.E ExA.C))
            (Jmat ExA.B_ ExA.E)
            (Mmat ExA.H ExA.B_ ExA.C ExA.E (EinvC ExA.E ExA.C)) ExA.Wt 1 1,
          Vhmat ExA.V ExA.U 1 1,
          Ffull (Zmat ExA.V ExA.Q1)
            (Rred (Nmat ExA.B_ ExA.G) (Lmat ExA.H (EinvC ExA.E ExA.C))
              (Jmat ExA.B_ ExA.E)
              (Mmat ExA.H ExA.B_ ExA.C ExA.E (EinvC ExA.E ExA.C)) ExA.Wt 1 1)
            (Vhmat ExA.V ExA.U 1 1)) ∧
    Phat 1 ExA.A ExA.V ExA.U (Mmat ExA.H ExA.B_ ExA.C ExA.E (EinvC ExA.E ExA.C))
        ExA.Wt * (ExA.A * Vhmat ExA.V ExA.U 1 1)
      = Vhmat ExA.V ExA.U 1 1 * (0 : Matrix (Fin 1 ⊕ Fin 1) (Fin 1 ⊕ Fin 1) ℚ)
        + Zmat ExA.V ExA.Q1
          * Rred (Nmat ExA.B_ ExA.G) (Lmat ExA.H (EinvC ExA.E ExA.C))
            (Jmat ExA.B_ ExA.E)
            (Mmat ExA.H ExA.B_ ExA.C ExA.E (EinvC ExA.E ExA.C)) ExA.Wt 1 1 :=
  @C1_roundtrip_deflated ℚ _ _ _ 3 1 1 0 (Fin 1 ⊕ Fin 1) _ _ 1 ExA.A ExA.V
    ExA.U ExA.AU ExA.H ExA.B_ ExA.C ExA.E ExA.Q1 ExA.G 1 ExA.U_v ExA.Wt 1 1 0
    (by with_unfolding_all decide)
    (by with_unfolding_all decide) (by with_unfolding_all decide)
    (by with_unfolding_all decide) (by with_unfolding_all decide)
    (by with_unfolding_all decide) (by with_unfolding_all decide)
    (by with_unfolding_all decide) (by with_unfolding_all decide)
    (by with_unfolding_all decide) (by with_unfolding_all decide)
    (by with_unfolding_all decide) (by with_unfolding_all decide)

/-- C3: on every builder state and every `Wt` on which `get` succeeds, the
outputs are computed by exactly the stated formulas: `PtE = Wt^H·M·Wt`,
`Pt = I − L·Wt·(PtE)⁻¹·Wt^H·J` of size `(n+d+1)×(n+d+1)`, the seed
`qt = Pt·[Pv_norm; 0; E⁻¹·U_v]` (for `d = 0` the last block is empty), and
`R_reduced = N·Pt·L·QT` with `QT = Qh·T` the accumulated
Householder-then-Hessenberg transform. -/
theorem C3_get_formulas {Nd n d l : ℕ} {κ : Type} [Fintype κ] [DecidableEq κ]
    (s : ArnStored K Nd n d l) (Wt : Matrix (Fin n ⊕ Fin d) κ K)
    (Qh T Hh : Matrix (Fin n ⊕ Fin d) (Fin n ⊕ Fin d) K)
    (hPtE : (PtEmat s.M Wt).det ≠ 0) (hE : s.E.det ≠ 0) :
    (getS s Wt Qh T Hh).2
      = .ok (Hh, Rred s.N s.L s.J s.M Wt Qh T, Vhmat s.V s.U Qh T,
          Ffull s.Z (Rred s.N s.L s.J s.M Wt Qh T) (Vhmat s.V s.U Qh T)) ∧
    PtEmat s.M Wt = Wtᴴ * s.M * Wt ∧
    Ptmat s.L s.J s.M Wt
      = 1 - s.L * Wt * minv (Wtᴴ * s.M * Wt) * (Wtᴴ * s.J) ∧
    qtvec s.L s.J s.M Wt s.Pv_norm (minv s.E * s.U_v)
      = Ptmat s.L s.J s.M Wt * q0 s.Pv_norm (minv s.E * s.U_v) ∧
    Rred s.N s.L s.J s.M Wt Qh T
      = s.N * Ptmat s.L s.J s.M Wt * (s.L * (Qh * T)) ∧
    Fintype.card (Fin (n+1) ⊕ Fin d) = n + d + 1 := by
  refine ⟨?_, ?_, ?_, rfl, ?_, ?_⟩
  · show getCore s.L s.J s.M s.N s.E s.U_v s.Pv_norm s.V s.U s.Z Wt Qh T Hh
      = _
    exact getCore_ok hPtE hE
  · rw [PtEmat, Matrix.mul_assoc]
  · rw [Ptmat, PtEmat]
    simp only [Matrix.mul_assoc]
  · rw [Rred]
    simp only [Matrix.mul_assoc]
  · simp only [Fintype.card_sum, Fintype.card_fin]
    omega

/-- C3 witness: the formulas hold on the concrete builder state, where both
solves succeed. -/
theorem C3_get_formulas_witness :
    (getS ExA.stored ExA.Wt 1 1 0).2
      = .ok (0, Rred ExA.stored.N ExA.stored.L ExA.stored.J ExA.stored.M
            ExA.Wt 1 1,
          Vhmat ExA.stored.V ExA.stored.U 1 1,
          Ffull ExA.stored.Z
            (Rred ExA.stored.N ExA.stored.L ExA.stored.J ExA.stored.M
              ExA.Wt 1 1)
            (Vhmat ExA.stored.V ExA.stored.U 1 1)) :=
  (C3_get_formulas ExA.stored ExA.Wt 1 1 0 (by with_unfolding_all decide)
    (by with_unfolding_all decide)).1

/-- C7: with `d > 0`, construction fails with
`SingularDeflationBlockError` exactly when the cross block `E` is singular
(no regularization or fallback), and for every nonsingular `E` it proceeds,
storing as `EinvC` the solution of `E·X = C`. -/
theorem C7_singular_E {n d : ℕ} (E : Matrix (Fin d) (Fin d) K)
    (C : Matrix (Fin d) (Fin n) K) (hd : 0 < d) :
    (initEinvC E C = .error .singularDeflationBlock ↔ E.det = 0) ∧
    (E.det ≠ 0 →
      initEinvC E C = .ok (EinvC E C) ∧ E * EinvC E C = C) := by
  constructor
  · rw [initEinvC, if_pos hd]
    exact npSolve_eq_error
  · intro hE
    rw [initEinvC, if_pos hd, EinvC]
    exact ⟨npSolve_eq_ok hE, EinvC_solves hE⟩

/-- C7 witness: a nonsingular `1×1` block `E = [[1]]` is solved
(`EinvC = E⁻¹·C`), a singular one `E = [[0]]` raises
`SingularDeflationBlockError`. -/
theorem C7_singular_E_witness :
    (initEinvC (!![(1:ℚ)]) !![(1:ℚ)] = .ok (EinvC !![(1:ℚ)] !![(1:ℚ)]) ∧
      !![(1:ℚ)] * EinvC !![(1:ℚ)] !![(1:ℚ)] = !![(1:ℚ)]) ∧
    initEinvC (!![(0:ℚ)]) !![(1:ℚ)] = .error .singularDeflationBlock :=
  ⟨(C7_singular_E !![(1:ℚ)] !![(1:ℚ)] (by decide)).2
      (by with_unfolding_all decide),
   (C7_singular_E !![(0:ℚ)] !![(1:ℚ)] (by decide)).1.mpr
      (by with_unfolding_all decide)⟩

/-- C8: on any builder state (whose construction succeeded, so `E` is
nonsingular), `get` fails with `SingularReductionError` exactly when the
compressed restriction `PtE = Wt^H·M·Wt` is singular; the failure leaves
the stored state unchanged, and whenever `PtE` is nonsingular the same
state's `get` succeeds. -/
theorem C8_singular_reduction {Nd n d l : ℕ} {κ : Type} [Fintype κ]
    [DecidableEq κ] (s : ArnStored K Nd n d l)
    (Wt : Matrix (Fin n ⊕ Fin d) κ K)
    (Qh T Hh : Matrix (Fin n ⊕ Fin d) (Fin n ⊕ Fin d) K)
    (hE : s.E.det ≠ 0) :
    ((getS s Wt Qh T Hh).2 = .error .singularReduction
      ↔ (PtEmat s.M Wt).det = 0) ∧
    ((PtEmat s.M Wt).det ≠ 0 → (getS s Wt Qh T Hh).2
      = .ok (Hh, Rred s.N s.L s.J s.M Wt Qh T, Vhmat s.V s.U Qh T,
          Ffull s.Z (Rred s.N s.L s.J s.M Wt Qh T)
            (Vhmat s.V s.U Qh T))) ∧
    (getS s Wt Qh T Hh).1 = s := by
  refine ⟨⟨fun herr => ?_, fun h0 => ?_⟩, fun h => ?_, rfl⟩
  case refine_3 =>
    show getCore s.L s.J s.M s.N s.E s.U_v s.Pv_norm s.V s.U s.Z Wt Qh T Hh
      = _
    exact getCore_ok h hE
  · by_contra hne
    have hok : getCore s.L s.J s.M s.N s.E s.U_v s.Pv_norm s.V s.U s.Z Wt
          Qh T Hh
        = Except.ok (Hh, Rred s.N s.L s.J s.M Wt Qh T, Vhmat s.V s.U Qh T,
            Ffull s.Z (Rred s.N s.L s.J s.M Wt Qh T)
              (Vhmat s.V s.U Qh T)) := getCore_ok hne hE
    have herr' : getCore s.L s.J s.M s.N s.E s.U_v s.Pv_norm s.V s.U s.Z Wt
          Qh T Hh
        = Except.error ArnError.singularReduction := herr
    rw [herr'] at hok
    exact absurd hok (by simp)
  · show getCore s.L s.J s.M s.N s.E s.U_v s.Pv_norm s.V s.U s.Z Wt Qh T Hh
      = Except.error ArnError.singularReduction
    unfold getCore
    rw [show npSolve ArnError.singularReduction (PtEmat s.M Wt) (Wtᴴ * s.J)
        = Except.error ArnError.singularReduction from npSolve_eq_error.mpr h0]
    rfl

/-- C8 witness: on the concrete builder state, the zero reduction `Wt₁`
fails with `SingularReductionError`, the state is untouched, and the
nonsingular reduction `Wt₂` on the *same* state succeeds. -/
theorem C8_singular_reduction_witness :
    (getS ExA.stored ExA.Wt1 1 1 0).2 = .error .singularReduction ∧
    (getS ExA.stored ExA.Wt1 1 1 0).1 = ExA.stored ∧
    (getS ExA.stored ExA.Wt2 1 1 0).2
      = .ok (0, Rred ExA.stored.N ExA.stored.L ExA.stored.J ExA.stored.M
            ExA.Wt2 1 1,
          Vhmat ExA.stored.V ExA.stored.U 1 1,
          Ffull ExA.stored.Z
            (Rred ExA.stored.N ExA.stored.L ExA.stored.J ExA.stored.M
              ExA.Wt2 1 1)
            (Vhmat ExA.stored.V ExA.stored.U 1 1)) :=
  ⟨(C8_singular_reduction ExA.stored ExA.Wt1 1 1 0
      (by with_unfolding_all decide)).1.mpr (by with_unfolding_all decide),
   (C8_singular_reduction ExA.stored ExA.Wt1 1 1 0
      (by with_unfolding_all decide)).2.2,
   (C8_singular_reduction ExA.stored ExA.Wt2 1 1 0
      (by with_unfolding_all decide)).2.1 (by with_unfolding_all decide)⟩

/-- C9: both components are stateless after construction: `get` and
`get_x0` return the stored state unchanged, and calling again with equal
arguments on the resulting state returns the same state and the same
result. -/
theorem C9_stateless {Nd n d l d2 : ℕ} {κ : Type} [Fintype κ]
    [DecidableEq κ] (s : ArnStored K Nd n d l)
    (Wt : Matrix (Fin n ⊕ Fin d) κ K)
    (Qh T Hh : Matrix (Fin n ⊕ Fin d) (Fin n ⊕ Fin d) K)
    (p : ObliqueProjectionState K Nd d2) (pre : Pre K Nd) :
    (getS s Wt Qh T Hh).1 = s ∧
    getS (getS s Wt Qh T Hh).1 Wt Qh T Hh = getS s Wt Qh T Hh ∧
    (getX0S p pre).1 = p ∧
    getX0S (getX0S p pre).1 pre = getX0S p pre :=
  ⟨rfl, rfl, rfl, rfl⟩

/-- C10 (amended): `get` demands a `Wt` with exactly `n + d` rows — on any
other row count (in particular `n+d+1`) it fails with a dimension
mismatch and produces no outputs — and on success the reduced Hessenberg
matrix is `(n+d)×(n+d)`, the residual coefficient matrix is
`(1+l)×(n+d)` (independent of the column count `k` of `Wt`, which does not
occur in the output types), and its row count `1+l` equals the column
count of `Z`, so `Z·R_reduced` is well-formed. -/
theorem C10_shapes {Nd n d l wr wc : ℕ} {κ : Type} [Fintype κ]
    [DecidableEq κ]
    (Wt' : Matrix (Fin wr) (Fin wc) K)
    (LL : Matrix (Fin (n+1) ⊕ Fin d) (Fin n ⊕ Fin d) K)
    (JJ : Matrix (Fin n ⊕ Fin d) (Fin (n+1) ⊕ Fin d) K)
    (MM : Matrix (Fin n ⊕ Fin d) (Fin n ⊕ Fin d) K)
    (NN : Matrix (Fin 1 ⊕ Fin l) (Fin (n+1) ⊕ Fin d) K)
    (E : Matrix (Fin d) (Fin d) K) (U_v : Matrix (Fin d) (Fin 1) K)
    (Pv_norm : K) (V : Matrix (Fin Nd) (Fin (n+1)) K)
    (U : Matrix (Fin Nd) (Fin d) K) (ZZ : Matrix (Fin Nd) (Fin 1 ⊕ Fin l) K)
    (Wt : Matrix (Fin n ⊕ Fin d) κ K)
    (Qh T Hh : Matrix (Fin n ⊕ Fin d) (Fin n ⊕ Fin d) K)
    (hwr : wr ≠ n + d) :
    getShaped wr wc Wt' LL JJ MM NN E U_v Pv_norm V U ZZ Qh T Hh
      = .error .dimensionMismatch ∧
    Fintype.card (Fin n ⊕ Fin d) = n + d ∧
    Fintype.card (Fin 1 ⊕ Fin l) = 1 + l ∧
    ZZ * Rred NN LL JJ MM Wt Qh T
      = ZZ * (NN * (Ptmat LL JJ MM Wt * (LL * (Qh * T)))) := by
  refine ⟨?_, by simp, by simp, by rw [Rred]⟩
  rw [getShaped, dif_neg hwr]

/-- C10 (counterexample): on the concrete valid non-invariant construction
with `d > 0` (where both linear solves are nonsingular, so `get` itself
would succeed), a `Wt` with `n+d+1 = 3` rows — the identity — is rejected
with a dimension mismatch before any output is produced: no `Wt` with
`n+d+1` rows ever reaches the output shapes the claim describes. -/
theorem C10_counterexample :
    (PtEmat (Mmat ExA.H ExA.B_ ExA.C ExA.E (EinvC ExA.E ExA.C)) ExA.Wt).det
      ≠ 0 ∧
    ExA.E.det ≠ 0 ∧
    getShaped 3 3 (1 : Matrix (Fin 3) (Fin 3) ℚ)
        (Lmat ExA.H (EinvC ExA.E ExA.C)) (Jmat ExA.B_ ExA.E)
        (Mmat ExA.H ExA.B_ ExA.C ExA.E (EinvC ExA.E ExA.C))
        (Nmat ExA.B_ ExA.G) ExA.E ExA.U_v 1 ExA.V ExA.U (Zmat ExA.V ExA.Q1)
        1 1 0
      = .error .dimensionMismatch := by
  refine ⟨by with_unfolding_all decide, by with_unfolding_all decide, ?_⟩
  rw [getShaped, dif_neg (by decide : (3:ℕ) ≠ 1 + 1)]

/-- C10 witness: the amended shape facts at the concrete instance. -/
theorem C10_shapes_witness :
    getShaped 4 2 (0 : Matrix (Fin 4) (Fin 2) ℚ)
        (Lmat ExA.H (EinvC ExA.E ExA.C)) (Jmat ExA.B_ ExA.E)
        (Mmat ExA.H ExA.B_ ExA.C ExA.E (EinvC ExA.E ExA.C))
        (Nmat ExA.B_ ExA.G) ExA.E ExA.U_v 1 ExA.V ExA.U (Zmat ExA.V ExA.Q1)
        1 1 0
      = .error .dimensionMismatch ∧
    Fintype.card (Fin 1 ⊕ Fin 1) = 1 + 1 ∧
    Fintype.card (Fin 1 ⊕ Fin 0) = 1 + 0 ∧
    Zmat ExA.V ExA.Q1 * Rred (Nmat ExA.B_ ExA.G)
        (Lmat ExA.H (EinvC ExA.E ExA.C)) (Jmat ExA.B_ ExA.E)
        (Mmat ExA.H ExA.B_ ExA.C ExA.E (EinvC ExA.E ExA.C)) ExA.Wt 1 1
      = Zmat ExA.V ExA.Q1 * (Nmat ExA.B_ ExA.G
          * (Ptmat (Lmat ExA.H (EinvC ExA.E ExA.C)) (Jmat ExA.B_ ExA.E)
              (Mmat ExA.H ExA.B_ ExA.C ExA.E (EinvC ExA.E ExA.C)) ExA.Wt
            * (Lmat ExA.H (EinvC ExA.E ExA.C)
              * ((1 : Matrix (Fin 1 ⊕ Fin 1) (Fin 1 ⊕ Fin 1) ℚ) * 1)))) :=
  C10_shapes (0 : Matrix (Fin 4) (Fin 2) ℚ)
    (Lmat ExA.H (EinvC ExA.E ExA.C)) (Jmat ExA.B_ ExA.E)
    (Mmat ExA.H ExA.B_ ExA.C ExA.E (EinvC ExA.E ExA.C))
    (Nmat ExA.B_ ExA.G) ExA.E ExA.U_v 1 ExA.V ExA.U (Zmat ExA.V ExA.Q1)
    ExA.Wt 1 1 0 (by decide)

/-- C4: with `d > 0`, the residual directions come from a column-pivoted QR
of `AU − U·E − V·B_`; the retained rank `l` is the count of diagonal
entries of `R` strictly exceeding `1e-14` times the 2-norm estimate of the
assembled block matrix `M` (the `norm2` primitive applied to `M`); `Q1` is
the first `l` columns of `Q`; and when the dropped tail of `R` is exactly
zero the factorization reproduces the residual exactly:
`AU − U·E − V·B_ = Q1·G`. -/
theorem C4_rank_threshold {K' : Type} [LinearOrderedField K'] [StarRing K']
    [DecidableEq K'] {Nd n d : ℕ}
    (V : Matrix (Fin Nd) (Fin (n+1)) K') (U AU : Matrix (Fin Nd) (Fin d) K')
    (H : Matrix (Fin (n+1)) (Fin n) K') (B_ : Matrix (Fin (n+1)) (Fin d) K')
    (C : Matrix (Fin d) (Fin n) K') (E : Matrix (Fin d) (Fin d) K')
    (EC : Matrix (Fin d) (Fin n) K')
    (norm2 : Matrix (Fin n ⊕ Fin d) (Fin n ⊕ Fin d) K' → K')
    (Qf : Matrix (Fin Nd) (Fin d) K') (Rf : Matrix (Fin d) (Fin d) K')
    (perm : Equiv.Perm (Fin d))
    (hfact : residMat V U AU E B_
      = (Qf * Rf).submatrix id fun j => perm.symm j)
    (htail : ∀ i j : Fin d,
      lRank Rf (norm2 (Mmat H B_ C E EC)) ≤ (i : ℕ) → Rf i j = 0) :
    lRank Rf (norm2 (Mmat H B_ C E EC))
      = (Finset.univ.filter fun i =>
          rankTol * norm2 (Mmat H B_ C E EC) < |Rf i i|).card ∧
    lRank Rf (norm2 (Mmat H B_ C E EC)) ≤ d ∧
    Q1of Qf Rf (norm2 (Mmat H B_ C E EC))
      = Qf.submatrix id
          (Fin.castLE (le_trans (Finset.card_filter_le _ _)
            (le_of_eq (by simp)))) ∧
    residMat V U AU E B_
      = Q1of Qf Rf (norm2 (Mmat H B_ C E EC))
          * Gof Rf (norm2 (Mmat H B_ C E EC)) perm := by
  have hld : lRank Rf (norm2 (Mmat H B_ C E EC)) ≤ d :=
    le_trans (Finset.card_filter_le _ _) (le_of_eq (by simp))
  refine ⟨rfl, hld, rfl, ?_⟩
  ext i j
  rw [hfact]
  simp only [Matrix.submatrix_apply, id_eq, Matrix.mul_apply, Q1of, Gof]
  rw [show (∑ t : Fin (lRank Rf (norm2 (Mmat H B_ C E EC))),
        Qf i (Fin.castLE (le_trans (Finset.card_filter_le _ _)
            (le_of_eq (by simp))) t)
          * Rf (Fin.castLE (le_trans (Finset.card_filter_le _ _)
            (le_of_eq (by simp))) t) (perm.symm j))
      = ∑ t ∈ Finset.univ.map (Fin.castLEEmb hld),
          Qf i t * Rf t (perm.symm j) from
    (Finset.sum_map Finset.univ (Fin.castLEEmb hld)
      fun y => Qf i y * Rf y (perm.symm j)).symm]
  symm
  apply Finset.sum_subset (Finset.subset_univ _)
  intro x _ hx
  have hge : lRank Rf (norm2 (Mmat H B_ C E EC)) ≤ (x : ℕ) := by
    by_contra hlt
    push_neg at hlt
    exact hx (Finset.mem_map.mpr ⟨⟨(x : ℕ), hlt⟩, Finset.mem_univ _,
      Fin.ext rfl⟩)
  rw [htail x (perm.symm j) hge, mul_zero]

/-- C4 witness: on the concrete instance the residual is exactly zero, the
rank estimate is `l = 0`, and the (empty) factorization reproduces it. -/
theorem C4_rank_threshold_witness :
    residMat ExA.V ExA.U ExA.AU ExA.E ExA.B_
      = Q1of ExA.Qf ExA.Rf
          (ExA.norm2 (Mmat ExA.H ExA.B_ ExA.C ExA.E (EinvC ExA.E ExA.C)))
        * Gof ExA.Rf
          (ExA.norm2 (Mmat ExA.H ExA.B_ ExA.C ExA.E (EinvC ExA.E ExA.C)))
          1 :=
  (C4_rank_threshold ExA.V ExA.U ExA.AU ExA.H ExA.B_ ExA.C ExA.E
    (EinvC ExA.E ExA.C) ExA.norm2 ExA.Qf ExA.Rf 1
    (by with_unfolding_all decide) (by with_unfolding_all decide)).2.2.2

/-- C5 (code bug): the invariant case is detected (`invariant` is `true`
for a square `1×1` Hessenberg matrix), yet the assembly of `L` at line 85
concatenates the `H.shape[0]`-row block `H` with the `(n+1)`-row block
`zeros((n+1, d))` — whose row counts differ exactly when `H` is square —
so construction raises a shape `ValueError` instead of succeeding.  A
non-invariant `2×1` input passes the same check. -/
theorem C5_invariant_assembly_fails :
    (invariantFlag 1 1 = true ∧ LAssemblyOk 1 1 = false) ∧
    (invariantFlag 2 1 = false ∧ LAssemblyOk 2 1 = true) := by
  decide

theorem empty_col_eq {x : Type} (A B : Matrix x (Fin 0) K) : A = B := by
  ext i j
  exact j.elim0

theorem empty_row_eq {x : Type} (A B : Matrix (Fin 0) x K) : A = B := by
  ext i j
  exact i.elim0

theorem mul_via_fin0 {x y : Type} (A : Matrix x (Fin 0) K)
    (B : Matrix (Fin 0) y K) : A * B = 0 := by
  ext i j
  simp [Matrix.mul_apply]

/-- C6: with no deflation vectors (`d = 0`), construction stores the `0×n`
zero matrix as `EinvC`, the zero-column empty residual basis, and the
trivial last-coordinate selector as `N`; the stored block matrices reduce
(under the canonical reindexing that drops the empty summand) to the plain
Krylov data `H`, `eye(n, n+1)`, `H[:n, :]` and `[V_n, v_last]` alone, and
`get` satisfies the (deflated) round-trip law under nothing but the plain
Krylov relation `A·V_n = V·H` — no `U`-dependent term contributes. -/
theorem C6_d0_degenerate {Nd n : ℕ} {κ : Type} [Fintype κ] [DecidableEq κ]
    (Bip A : Matrix (Fin Nd) (Fin Nd) K) (V : Matrix (Fin Nd) (Fin (n+1)) K)
    (U AU : Matrix (Fin Nd) (Fin 0) K) (H : Matrix (Fin (n+1)) (Fin n) K)
    (B_ : Matrix (Fin (n+1)) (Fin 0) K) (C : Matrix (Fin 0) (Fin n) K)
    (E : Matrix (Fin 0) (Fin 0) K) (Q1 : Matrix (Fin Nd) (Fin 0) K)
    (G : Matrix (Fin 0) (Fin 0) K) (Wt : Matrix (Fin n ⊕ Fin 0) κ K)
    (Qh T Hh : Matrix (Fin n ⊕ Fin 0) (Fin n ⊕ Fin 0) K)
    (hAVn : A * Vn V = V * H) (hVV : Vᴴ * (Bip * V) = 1)
    (hQhH : Qhᴴ = Qh) (hQh2 : Qh * Qh = 1) (hT : Tᴴ * T = 1)
    (hHess : Xhess (Lmat H (EinvC E C)) (Jmat B_ E)
        (Mmat H B_ C E (EinvC E C)) Wt Qh = T * Hh * Tᴴ) :
    initEinvC E C = .ok 0 ∧
    Q1 = 0 ∧
    Nmat B_ G = Nmat_d0 ∧
    Matrix.reindex (Equiv.sumEmpty (Fin (n+1)) (Fin 0))
        (Equiv.sumEmpty (Fin n) (Fin 0)) (Lmat H (EinvC E C)) = H ∧
    Matrix.reindex (Equiv.sumEmpty (Fin n) (Fin 0))
        (Equiv.sumEmpty (Fin (n+1)) (Fin 0)) (Jmat B_ E) = eyeRect ∧
    Matrix.reindex (Equiv.sumEmpty (Fin n) (Fin 0))
        (Equiv.sumEmpty (Fin n) (Fin 0)) (Mmat H B_ C E (EinvC E C))
      = Hn H ∧
    Matrix.reindex (Equiv.refl (Fin Nd)) (Equiv.sumEmpty (Fin 1) (Fin 0))
        (Zmat V Q1) = vlast V ∧
    Phat Bip A V U (Mmat H B_ C E (EinvC E C)) Wt * (A * Vhmat V U Qh T)
      = Vhmat V U Qh T * Hh
        + Zmat V Q1 * Rred (Nmat B_ G) (Lmat H (EinvC E C)) (Jmat B_ E)
            (Mmat H B_ C E (EinvC E C)) Wt Qh T := by
  have hBnEC : Bn B_ * EinvC E C = (0 : Matrix (Fin n) (Fin n) K) :=
    mul_via_fin0 _ _
  refine ⟨rfl, empty_col_eq _ _, ?_, ?_, ?_, ?_, ?_, ?_⟩
  · have hsm : smallN B_ G = 1 := by
      ext i j
      rcases i with i | i
      · rcases j with j | j
        · simp [smallN, Matrix.one_apply, Subsingleton.elim i j]
        · exact j.elim0
      · exact i.elim0
    rw [Nmat, hsm, Matrix.one_mul]
    rfl
  · ext i j
    simp [Lmat, Equiv.sumEmpty]
  · ext i j
    simp [Jmat, Equiv.sumEmpty]
  · ext i j
    rw [Mmat, hBnEC, add_zero]
    simp [Equiv.sumEmpty, Hn]
  · ext i j
    simp [Zmat, Equiv.sumEmpty, vlast, Matrix.fromColumns]
  · have hAU : A * U = AU := empty_col_eq _ _
    have hVAU : Vᴴ * (Bip * AU) = B_ := empty_col_eq _ _
    have hUAU : Uᴴ * (Bip * AU) = E := empty_row_eq _ _
    have hQR : AU = U * E + V * B_ + Q1 * G := empty_col_eq _ _
    have hAVn' : A * Vn V = V * H + AU * EinvC E C := by
      rw [mul_via_fin0, add_zero]
      exact hAVn
    exact roundtrip_core (empty_row_eq _ _) hAVn' hAU hVV
      (empty_row_eq _ _) hVAU hUAU hQR hQhH hQh2 hT hHess

/-- C6 witness: the degenerate reduction on the concrete `d = 0` instance,
including the round-trip law with only the Krylov data. -/
theorem C6_d0_degenerate_witness :
    Nmat ExB.Bz ExB.Gz = Nmat_d0 ∧
    Phat 1 ExB.A ExB.V ExB.Uz
        (Mmat ExB.H ExB.Bz ExB.Cz ExB.Ez (EinvC ExB.Ez ExB.Cz)) ExB.Wtz
        * (ExB.A * Vhmat ExB.V ExB.Uz 1 1)
      = Vhmat ExB.V ExB.Uz 1 1 * ExB.Hh
        + Zmat ExB.V ExB.Q1z
          * Rred (Nmat ExB.Bz ExB.Gz) (Lmat ExB.H (EinvC ExB.Ez ExB.Cz))
            (Jmat ExB.Bz ExB.Ez)
            (Mmat ExB.H ExB.Bz ExB.Cz ExB.Ez (EinvC ExB.Ez ExB.Cz)) ExB.Wtz
            1 1 :=
  ⟨(C6_d0_degenerate 1 ExB.A ExB.V ExB.Uz ExB.Uz ExB.H ExB.Bz ExB.Cz ExB.Ez
      ExB.Q1z ExB.Gz ExB.Wtz 1 1 ExB.Hh (by with_unfolding_all decide)
      (by with_unfolding_all decide) (by with_unfolding_all decide)
      (by with_unfolding_all decide) (by with_unfolding_all decide)
      (by with_unfolding_all decide)).2.2.1,
   (C6_d0_degenerate 1 ExB.A ExB.V ExB.Uz ExB.Uz ExB.H ExB.Bz ExB.Cz ExB.Ez
      ExB.Q1z ExB.Gz ExB.Wtz 1 1 ExB.Hh (by with_unfolding_all decide)
      (by with_unfolding_all decide) (by with_unfolding_all decide)
      (by with_unfolding_all decide) (by with_unfolding_all decide)
      (by with_unfolding_all decide)).2.2.2.2.2.2.2⟩

end KrypyDeflation
